import Mathlib

/-!
Verification of the SyferText tokenization pipeline specification.

The repository source available here consists of the tutorial notebook
`tutorials/Part 0 - (Getting Started) Local Tokenization.ipynb`; the library
modules it exercises (`syfertext.language.Language`, `syfertext.doc.Doc`,
`Token`, the tokenizer and the vocabulary store) are not present.  The
definitions below are therefore modelled from the specification, and every
concrete value observed in the notebook (token texts, `space_after` flags and
`orth` hashes) is used to validate the model: the hash function below is
MurmurHash3 x64 128 with seed 1, low 64 bits, of the UTF-8 bytes of the token
text, and it reproduces the ten `orth` values printed by the notebook exactly.

Texts are `List Char` (codepoint level, as the spec requires), machine words
are `Nat` reduced modulo `2 ^ 64`, and vectors are `List Float` (only the
zero vector and equality propagation are ever reasoned about).
-/

namespace SyferText

/-- Helper turning a string literal into the codepoint list used everywhere. -/
def str (s : String) : List Char := s.data

/-- The 64-bit modulus. -/
def w64 : Nat := 2 ^ 64

/-- Rotate a 64-bit value left by `r` bits (for `0 < r < 64`). -/
def rotl64 (x r : Nat) : Nat :=
  ((x <<< r) % w64) ||| (x >>> (64 - r))

/-- Little-endian value of a byte list (first byte is least significant). -/
def le64 : List Nat → Nat
  | [] => 0
  | b :: bs => b + 256 * le64 bs

/-- First mixing constant of MurmurHash3 x64 128. -/
def mmc1 : Nat := 0x87c37b91114253d5

/-- Second mixing constant of MurmurHash3 x64 128. -/
def mmc2 : Nat := 0x4cf5ad432745937f

/-- Finalization mix of MurmurHash3 (64-bit avalanche). -/
def fmix64 (k0 : Nat) : Nat :=
  let k1 := k0 ^^^ (k0 >>> 33)
  let k2 := (k1 * 0xff51afd7ed558ccd) % w64
  let k3 := k2 ^^^ (k2 >>> 33)
  let k4 := (k3 * 0xc4ceb9fe1a85ec53) % w64
  k4 ^^^ (k4 >>> 33)

/-- Main block loop of MurmurHash3 x64 128: consumes 16-byte blocks and
returns the two running state words together with the residual tail. -/
def m3loop (h1 h2 : Nat) :
    List Nat → Nat × Nat × List Nat
  | b0 :: b1 :: b2 :: b3 :: b4 :: b5 :: b6 :: b7 ::
    b8 :: b9 :: b10 :: b11 :: b12 :: b13 :: b14 :: b15 :: rest =>
      let k1 := le64 [b0, b1, b2, b3, b4, b5, b6, b7]
      let k2 := le64 [b8, b9, b10, b11, b12, b13, b14, b15]
      let k1a := (k1 * mmc1) % w64
      let k1b := rotl64 k1a 31
      let k1c := (k1b * mmc2) % w64
      let h1a := h1 ^^^ k1c
      let h1b := rotl64 h1a 27
      let h1c := (h1b + h2) % w64
      let h1d := (h1c * 5 + 0x52dce729) % w64
      let k2a := (k2 * mmc2) % w64
      let k2b := rotl64 k2a 33
      let k2c := (k2b * mmc1) % w64
      let h2a := h2 ^^^ k2c
      let h2b := rotl64 h2a 31
      let h2c := (h2b + h1d) % w64
      let h2d := (h2c * 5 + 0x38495ab5) % w64
      m3loop h1d h2d rest
  | tl => (h1, h2, tl)

/-- Tail handling and finalization of MurmurHash3 x64 128; returns the low
64-bit word of the 128-bit digest, which is what spaCy-style `hash_string`
exposes.  The result is reduced modulo `2 ^ 64` by construction. -/
def m3final (len h1 h2 : Nat) (tl : List Nat) : Nat :=
  let h2k :=
    if 8 < tl.length then
      let k2 := le64 (tl.drop 8)
      let k2a := (k2 * mmc2) % w64
      let k2b := rotl64 k2a 33
      let k2c := (k2b * mmc1) % w64
      h2 ^^^ k2c
    else h2
  let h1k :=
    if 0 < tl.length then
      let k1 := le64 (tl.take 8)
      let k1a := (k1 * mmc1) % w64
      let k1b := rotl64 k1a 31
      let k1c := (k1b * mmc2) % w64
      h1 ^^^ k1c
    else h1
  let h1l := h1k ^^^ len
  let h2l := h2k ^^^ len
  let h1m := (h1l + h2l) % w64
  let h2m := (h2l + h1m) % w64
  let h1f := fmix64 h1m
  let h2f := fmix64 h2m
  (h1f + h2f) % w64

/-- Hash of a byte sequence: MurmurHash3 x64 128, seed 1, low 64 bits. -/
def hashBytes (bs : List Nat) : Nat :=
  let r := m3loop 1 1 bs
  m3final bs.length r.1 r.2.1 r.2.2

/-- UTF-8 encoding of one codepoint. -/
def utf8Bytes (c : Char) : List Nat :=
  let n := c.toNat
  if n < 0x80 then [n]
  else if n < 0x800 then [0xC0 + n / 64, 0x80 + n % 64]
  else if n < 0x10000 then
    [0xE0 + n / 4096, 0x80 + (n / 64) % 64, 0x80 + n % 64]
  else
    [0xF0 + n / 262144, 0x80 + (n / 4096) % 64, 0x80 + (n / 64) % 64,
     0x80 + n % 64]

/-- The deterministic, content-derived 64-bit identity of a token text: the
hash of its UTF-8 bytes.  This is the function behind every `orth` value in
the notebook. -/
def hashString (t : List Char) : Nat := hashBytes (t.flatMap utf8Bytes)

/-- The hash function reproduces the `orth` values printed by the notebook
for all ten distinct tokens of its two example sentences. -/
theorem hashString_matches_notebook :
    hashString (str "I") = 5943131912006430202 ∧
    hashString (str "am") = 11728213064939857863 ∧
    hashString (str "tokenizing") = 5460367124718174413 ∧
    hashString (str "a") = 5182201742351716208 ∧
    hashString (str "python") = 17162076245381424065 ∧
    hashString (str "native") = 13663389200814259603 ∧
    hashString (str "string") = 13891782705740509576 ∧
    hashString (str "object") = 10176415242575268008 ∧
    hashString (str "PySyft") = 13286865392898898656 ∧
    hashString (str "String") = 13847508276233069841 := by
  decide

/-- The space character (codepoint 32). -/
def spaceChar : Char := Char.ofNat 32

/-- The apostrophe character (codepoint 39). -/
def apos : Char := Char.ofNat 39

/-- Modelled from the spec: the contraction exception table of the segmenter
(`syfertext`'s tokenizer exception rules are not in the available source; the
spec leaves the exact table open and gives contractions as the examples). -/
def exceptions : List (List Char) :=
  [['d', 'o', 'n', apos, 't'],
   ['c', 'a', 'n', apos, 't'],
   ['w', 'o', 'n', apos, 't']]

/-- Modelled from the spec: the punctuation characters that the segmenter
splits off a chunk's edges as separate spans. -/
def isPunct (c : Char) : Bool :=
  ['.', ',', ';', ':', '!', '?', '(', ')', '[', ']',
   Char.ofNat 34].contains c

/-- Modelled from the spec: phase 1 of segmentation.  Scans the text,
splitting on whitespace runs; each chunk is reported with its start offset
(in codepoints) and a flag recording whether whitespace followed it.  The
running state is `none` (inside whitespace) or `some (s, acc)` (inside a
chunk that began at offset `s`, whose characters so far are `acc`,
reversed). -/
def chunks : List Char → Nat → Option (Nat × List Char) →
    List (Nat × List Char × Bool)
  | [], _, none => []
  | [], _, some (s, acc) => [(s, acc.reverse, false)]
  | c :: rest, i, none =>
    if c.isWhitespace then chunks rest (i + 1) none
    else chunks rest (i + 1) (some (i, [c]))
  | c :: rest, i, some (s, acc) =>
    if c.isWhitespace then (s, acc.reverse, true) :: chunks rest (i + 1) none
    else chunks rest (i + 1) (some (s, c :: acc))

/-- Modelled from the spec: phase 2 of segmentation on one chunk, with fuel
for structural recursion.  A chunk matching an exception rule is kept whole;
otherwise leading and trailing punctuation is split off as separate spans,
recursing until no rule matches; an unmatched chunk is emitted verbatim. -/
def splitChunkF : Nat → List Char → List (List Char)
  | 0, c => if c.isEmpty then [] else [c]
  | fuel + 1, c =>
    match c with
    | [] => []
    | h :: t =>
      if (h :: t) ∈ exceptions then [h :: t]
      else if isPunct h then [h] :: splitChunkF fuel t
      else
        match t.getLast? with
        | some l =>
          if isPunct l then splitChunkF fuel ((h :: t).dropLast) ++ [[l]]
          else [h :: t]
        | none => [h :: t]

/-- Modelled from the spec: the exception/punctuation pass on one chunk. -/
def splitChunk (c : List Char) : List (List Char) :=
  splitChunkF c.length c

/-- A token span: start offset (codepoints) into the original text, the
token's characters, and the recorded trailing-whitespace flag. -/
structure SpanTok where
  start : Nat
  text : List Char
  spaceAfter : Bool
deriving DecidableEq

/-- Lay the sub-spans of one chunk out as tokens: offsets are assigned
cumulatively from the chunk's start; the chunk's trailing-space flag lands on
its last sub-span, inner sub-spans carry `false` (nothing separates them in
the original text). -/
def piecesToToks : Nat → List (List Char) → Bool → List SpanTok
  | _, [], _ => []
  | s, [p], fl => [⟨s, p, fl⟩]
  | s, p :: q :: ps, fl =>
    ⟨s, p, false⟩ :: piecesToToks (s + p.length) (q :: ps) fl

/-- Tokens of one whitespace-delimited chunk. -/
def chunkToToks : Nat × List Char × Bool → List SpanTok
  | (s, txt, fl) => piecesToToks s (splitChunk txt) fl

/-- Modelled from the spec: `segment(text)`, the full rule-based segmentation
of a raw text into an ordered sequence of token spans with
trailing-whitespace flags. -/
def segment (T : List Char) : List SpanTok :=
  (chunks T 0 none).flatMap chunkToToks

/-- Call-time errors of the Document interface. -/
inductive DocError
  | indexOutOfRange
  | invalidRange
deriving DecidableEq

/-- Modelled from the spec: a Document — the raw text buffer, the ordered
token sequence produced from it, and the opaque owner identifier. -/
structure Doc where
  text : List Char
  tokens : List SpanTok
  owner : Nat
deriving DecidableEq

/-- Number of tokens of a Document. -/
def Doc.length (d : Doc) : Nat := d.tokens.length

/-- Modelled from the spec: `tokenAt(index)`, failing with
`IndexOutOfRangeError` outside `[0, length)`. -/
def Doc.tokenAt (d : Doc) (i : Nat) : Except DocError SpanTok :=
  if h : i < d.tokens.length then .ok (d.tokens.get ⟨i, h⟩)
  else .error .indexOutOfRange

/-- Modelled from the spec: `slice(startIndex, endIndex)` — a Document-like
view on the token sub-range sharing the parent's text buffer and defaulting
to the parent's owner, failing with `InvalidRangeError` if start > end or
either bound is out of range. -/
def Doc.slice (d : Doc) (a b : Nat) : Except DocError Doc :=
  if a ≤ b ∧ b ≤ d.tokens.length then
    .ok ⟨d.text, (d.tokens.drop a).take (b - a), d.owner⟩
  else .error .invalidRange

/-- Concatenation of token texts honoring the trailing-space flags. -/
def reconToks : List SpanTok → List Char
  | [] => []
  | t :: rest =>
    t.text ++ (if t.spaceAfter then [spaceChar] else []) ++ reconToks rest

/-- Modelled from the spec: `toText()` — reconstructs the covered text from
the token sequence, honoring trailing-space flags. -/
def Doc.toText (d : Doc) : List Char := reconToks d.tokens

/-- Modelled from the spec: the Lexical Store — the vector dimensionality and
the vocabulary table mapping token text to its embedding vector. -/
structure LexicalStore where
  dim : Nat
  entries : List (List Char × List Float)

/-- Association-list search of the vocabulary table. -/
def lookupVec : List (List Char × List Float) → List Char →
    Option (List Float)
  | [], _ => none
  | (k, v) :: rest, t => if k = t then some v else lookupVec rest t

/-- Modelled from the spec: `lookup(text) -> (hash, vector)`, a total
function; the hash is always `hashString text` (the same deterministic
function for hits and misses), and a vocabulary miss yields the all-zero
vector of the store's dimensionality. -/
def LexicalStore.lookup (s : LexicalStore) (t : List Char) :
    Nat × List Float :=
  (hashString t,
    match lookupVec s.entries t with
    | some v => v
    | none => List.replicate s.dim 0.0)

/-- Vocabulary-membership presence flag. -/
def LexicalStore.has (s : LexicalStore) (t : List Char) : Bool :=
  (lookupVec s.entries t).isSome

/-- A token's 64-bit identity: the store lookup of its text. -/
def SpanTok.orth (t : SpanTok) (s : LexicalStore) : Nat :=
  (s.lookup t.text).1

/-- A token's embedding vector: the store lookup of its text. -/
def SpanTok.vector (t : SpanTok) (s : LexicalStore) : List Float :=
  (s.lookup t.text).2

/-- Modelled from the spec: the Pipeline Controller (`Language`): one Lexical
Store plus the owner it was loaded with. -/
structure Language where
  store : LexicalStore
  owner : Nat

/-- Modelled from the spec: `load(model, owner)` — the vocabulary data comes
from the model-loading collaborator, so the store is taken as given. -/
def load (store : LexicalStore) (owner : Nat) : Language :=
  ⟨store, owner⟩

/-- Process input: either a plain text value or an owner-tagged text value
(a PySyft `String`, which carries its owner). -/
inductive PInput
  | plain (text : List Char)
  | tagged (text : List Char) (owner : Nat)

/-- The underlying text of either input form. -/
def PInput.text : PInput → List Char
  | .plain t => t
  | .tagged t _ => t

/-- Modelled from the spec: `process(inputText, callerOwner) -> Document`.
Both input paths run the same plain-text segmentation; the Document's owner
is `callerOwner` when explicitly given, else the tagged input's owner, else
the controller's owner. -/
def Language.process (L : Language) (inp : PInput)
    (callerOwner : Option Nat) : Doc :=
  { text := inp.text
    tokens := segment inp.text
    owner :=
      match callerOwner with
      | some o => o
      | none =>
        match inp with
        | .plain _ => L.owner
        | .tagged _ o => o }

/-- A small concrete store used by concrete instances below: dimensionality 3
with two vocabulary entries. -/
def demoStore : LexicalStore :=
  ⟨3, [(str "am", [1.0, 2.0, 3.0]), (str "object", [4.0, 5.0, 6.0])]⟩

/-- A concrete controller loaded with owner 0 (the notebook's `me`). -/
def demoLang : Language := load demoStore 0

/-- Well-formedness of a chunk list starting no earlier than `n`: starts are
at least `n`, chunk texts are nonempty, and each next chunk starts strictly
after the previous chunk's end (the whitespace gap). -/
def chunksOK : Nat → List (Nat × List Char × Bool) → Prop
  | _, [] => True
  | n, (s, txt, _) :: rest => n ≤ s ∧ txt ≠ [] ∧ chunksOK (s + txt.length + 1) rest

/-- Well-formedness of a token list starting no earlier than `n`: starts are
at least `n`, texts are nonempty, and each next token starts no earlier than
the previous token's end. -/
def toksOK : Nat → List SpanTok → Prop
  | _, [] => True
  | n, t :: rest => n ≤ t.start ∧ t.text ≠ [] ∧ toksOK (t.start + t.text.length) rest

theorem chunksOK_mono {m n : Nat} {l : List (Nat × List Char × Bool)}
    (h : m ≤ n) (hl : chunksOK n l) : chunksOK m l := by
  cases l with
  | nil => trivial
  | cons c rest =>
    obtain ⟨s, txt, fl⟩ := c
    exact ⟨Nat.le_trans h hl.1, hl.2.1, hl.2.2⟩

theorem toksOK_mono {m n : Nat} {l : List SpanTok}
    (h : m ≤ n) (hl : toksOK n l) : toksOK m l := by
  cases l with
  | nil => trivial
  | cons t rest => exact ⟨Nat.le_trans h hl.1, hl.2.1, hl.2.2⟩

/-- The chunker produces well-formed chunk lists, from either scanning
state. -/
theorem chunks_chunksOK (T : List Char) : ∀ i : Nat,
    chunksOK i (chunks T i none) ∧
    ∀ s acc, acc ≠ [] → i = s + acc.length →
      chunksOK s (chunks T i (some (s, acc))) := by
  induction T with
  | nil =>
    intro i
    refine ⟨trivial, ?_⟩
    intro s acc hacc _
    exact ⟨Nat.le_refl s, by simpa using hacc, trivial⟩
  | cons c rest ih =>
    intro i
    constructor
    · by_cases hws : c.isWhitespace
      · simpa [chunks, hws] using
          chunksOK_mono (Nat.le_succ i) ((ih (i + 1)).1)
      · simpa [chunks, hws] using
          (ih (i + 1)).2 i [c] (by simp) (by simp)
    · intro s acc hacc hi
      by_cases hws : c.isWhitespace
      · simp only [chunks, hws, if_true]
        refine ⟨Nat.le_refl s, by simpa using hacc, ?_⟩
        have h2 : s + acc.reverse.length + 1 = i + 1 := by
          rw [List.length_reverse]; omega
        rw [h2]
        exact (ih (i + 1)).1
      · simpa [chunks, hws] using
          (ih (i + 1)).2 s (c :: acc) (by simp) (by simp [hi]; omega)

/-- Splitting a chunk preserves its characters: the sub-spans concatenate
back to the chunk. -/
theorem splitChunkF_join : ∀ (fuel : Nat) (c : List Char),
    (splitChunkF fuel c).flatten = c := by
  intro fuel
  induction fuel with
  | zero =>
    intro c
    by_cases h : c.isEmpty
    · simp_all [splitChunkF, List.isEmpty_iff]
    · simp [splitChunkF, h]
  | succ fuel ih =>
    intro c
    cases c with
    | nil => simp [splitChunkF]
    | cons h t =>
      rw [splitChunkF]
      by_cases hex : (h :: t) ∈ exceptions
      · simp [hex]
      · by_cases hp : isPunct h
        · simp [hex, hp, ih t]
        · cases hgl : t.getLast? with
          | none => simp [hex, hp]
          | some l =>
            by_cases hpl : isPunct l
            · have hmem : l ∈ (h :: t).getLast? := by
                cases t with
                | nil => simp at hgl
                | cons a t2 => simpa [List.getLast?_cons_cons] using hgl
              simp only [hex, hp, hpl, if_neg, if_pos, Bool.false_eq_true,
                not_false_eq_true]
              simp only [List.flatten_append, ih]
              simpa using List.dropLast_append_getLast? l hmem
            · simp [hex, hp, hpl]

theorem splitChunk_join (c : List Char) : (splitChunk c).flatten = c :=
  splitChunkF_join c.length c

/-- Splitting a chunk never produces an empty sub-span. -/
theorem splitChunkF_ne_nil : ∀ (fuel : Nat) (c p : List Char),
    p ∈ splitChunkF fuel c → p ≠ [] := by
  intro fuel
  induction fuel with
  | zero =>
    intro c p hp
    by_cases h : c.isEmpty
    · simp [splitChunkF, h] at hp
    · simp [splitChunkF, h] at hp
      simp_all [List.isEmpty_iff]
  | succ fuel ih =>
    intro c p hp
    cases c with
    | nil => simp [splitChunkF] at hp
    | cons h t =>
      rw [splitChunkF] at hp
      by_cases hex : (h :: t) ∈ exceptions
      · simp [hex] at hp; simp [hp]
      · by_cases hpu : isPunct h
        · simp [hex, hpu] at hp
          rcases hp with hp | hp
          · simp [hp]
          · exact ih t p hp
        · cases hgl : t.getLast? with
          | none => simp [hex, hpu, hgl] at hp; simp [hp]
          | some l =>
            by_cases hpl : isPunct l
            · simp [hex, hpu, hgl, hpl] at hp
              rcases hp with hp | hp
              · exact ih _ p hp
              · simp [hp]
            · simp [hex, hpu, hgl, hpl] at hp; simp [hp]

theorem splitChunk_ne_nil {c p : List Char} (hp : p ∈ splitChunk c) :
    p ≠ [] :=
  splitChunkF_ne_nil c.length c p hp

/-- Laying out nonempty sub-spans yields a well-formed token list, in front
of any continuation that is well formed from the end of the chunk. -/
theorem piecesToToks_toksOK : ∀ (ps : List (List Char)) (s n : Nat)
    (fl : Bool) (rest : List SpanTok),
    (∀ p ∈ ps, p ≠ []) → n ≤ s → toksOK (s + ps.flatten.length) rest →
    toksOK n (piecesToToks s ps fl ++ rest) := by
  intro ps
  induction ps with
  | nil =>
    intro s n fl rest _ hns hrest
    simpa [piecesToToks] using
      toksOK_mono (Nat.le_trans hns (Nat.le_add_right s _)) hrest
  | cons p qs ih =>
    intro s n fl rest hne hns hrest
    cases qs with
    | nil =>
      refine ⟨by simpa [piecesToToks] using hns, ?_, ?_⟩
      · simpa [piecesToToks] using hne p (by simp)
      · simpa [piecesToToks] using toksOK_mono (by simp) hrest
    | cons q rs =>
      refine ⟨by simpa [piecesToToks] using hns, ?_, ?_⟩
      · simpa [piecesToToks] using hne p (by simp)
      · have := ih (s + p.length) (s + p.length) fl rest
          (fun r hr => hne r (by simp [hr])) (Nat.le_refl _)
          (by simpa [Nat.add_assoc] using hrest)
        simpa [piecesToToks] using this

/-- Tokens of a well-formed chunk list are well formed. -/
theorem flatMap_toksOK : ∀ (cs : List (Nat × List Char × Bool)) (n : Nat),
    chunksOK n cs → toksOK n (cs.flatMap chunkToToks) := by
  intro cs
  induction cs with
  | nil => intro n _; trivial
  | cons c rest ih =>
    intro n hOK
    obtain ⟨s, txt, fl⟩ := c
    have hjoin : (splitChunk txt).flatten.length = txt.length := by
      rw [splitChunk_join]
    rw [List.flatMap_cons]
    exact piecesToToks_toksOK (splitChunk txt) s n fl _
      (fun p hp => splitChunk_ne_nil hp) hOK.1
      (by
        rw [hjoin]
        exact toksOK_mono (Nat.le_succ _) (ih _ hOK.2.2))

/-- The full segmentation of any text is well formed from offset 0. -/
theorem segment_toksOK (T : List Char) : toksOK 0 (segment T) :=
  flatMap_toksOK _ 0 (chunks_chunksOK T 0).1

/-- In a well-formed token list, span starts are strictly increasing. -/
theorem toksOK_get_lt : ∀ (l : List SpanTok) (n : Nat), toksOK n l →
    ∀ (i : Nat) (h : i + 1 < l.length),
    (l.get ⟨i, Nat.lt_of_succ_lt h⟩).start < (l.get ⟨i + 1, h⟩).start := by
  intro l
  induction l with
  | nil => intro n _ i h; simp at h
  | cons t rest ih =>
    intro n hOK i h
    cases i with
    | zero =>
      cases rest with
      | nil => simp at h
      | cons u rr =>
        have h1 : toksOK (t.start + t.text.length) (u :: rr) := hOK.2.2
        have h2 : t.text ≠ [] := hOK.2.1
        have h3 : t.start + t.text.length ≤ u.start := h1.1
        have h4 : 0 < t.text.length := List.length_pos.mpr h2
        simp only [List.get]
        omega
    | succ j =>
      have h' : j + 1 < rest.length := by simpa using h
      simpa [List.get] using
        ih (t.start + t.text.length) hOK.2.2 j h'

/-- Every whitespace character of the text is a plain space. -/
def wsOnlySpace (T : List Char) : Bool :=
  T.all (fun c => !c.isWhitespace || c == spaceChar)

/-- No two adjacent characters of the text are both whitespace. -/
def noAdjWs : List Char → Bool
  | [] => true
  | [_] => true
  | a :: b :: rest => !(a.isWhitespace && b.isWhitespace) && noAdjWs (b :: rest)

/-- The text does not begin with whitespace. -/
def noLeadWs : List Char → Bool
  | [] => true
  | c :: _ => !c.isWhitespace

theorem noAdjWs_tail {a : Char} {l : List Char}
    (h : noAdjWs (a :: l) = true) : noAdjWs l = true := by
  cases l with
  | nil => rfl
  | cons b r => exact (Bool.and_eq_true_iff.mp h).2

/-- Concatenation of chunk texts honoring the trailing-space flags. -/
def reconChunks : List (Nat × List Char × Bool) → List Char
  | [] => []
  | (_, txt, fl) :: rest =>
    txt ++ (if fl then [spaceChar] else []) ++ reconChunks rest

/-- Reconstruction through the sub-span layout of one chunk equals the
chunk's own reconstruction: the chunk's characters, then its space flag. -/
theorem piecesToToks_recon : ∀ (ps : List (List Char)) (s : Nat) (fl : Bool)
    (rest : List SpanTok), ps ≠ [] →
    reconToks (piecesToToks s ps fl ++ rest) =
      ps.flatten ++ (if fl then [spaceChar] else []) ++ reconToks rest := by
  intro ps
  induction ps with
  | nil => intro _ _ _ h; exact absurd rfl h
  | cons p qs ih =>
    intro s fl rest _
    cases qs with
    | nil => simp [piecesToToks, reconToks]
    | cons q rs =>
      have h2 := ih (s + p.length) fl rest (by simp)
      simp only [piecesToToks, List.cons_append, reconToks, List.append_eq]
      rw [h2]
      simp [List.append_assoc]

/-- Token-level reconstruction of a well-formed chunk list equals chunk-level
reconstruction. -/
theorem flatMap_recon : ∀ (cs : List (Nat × List Char × Bool)) (n : Nat),
    chunksOK n cs →
    reconToks (cs.flatMap chunkToToks) = reconChunks cs := by
  intro cs
  induction cs with
  | nil => intro n _; rfl
  | cons c rest ih =>
    intro n hOK
    obtain ⟨s, txt, fl⟩ := c
    have htxt : txt ≠ [] := hOK.2.1
    have hsp : splitChunk txt ≠ [] := by
      intro hnil
      exact htxt (by simpa [hnil] using (splitChunk_join txt).symm)
    rw [List.flatMap_cons, chunkToToks, piecesToToks_recon _ _ _ _ hsp,
      splitChunk_join, ih _ hOK.2.2]
    rfl

/-- Chunk reconstruction recovers the text, from either scanning state, when
all whitespace is single interior spaces. -/
theorem recon_chunks (T : List Char) :
    wsOnlySpace T = true → noAdjWs T = true → ∀ i : Nat,
    (noLeadWs T = true → reconChunks (chunks T i none) = T) ∧
    (∀ s acc, reconChunks (chunks T i (some (s, acc))) = acc.reverse ++ T) := by
  induction T with
  | nil =>
    intro _ _ i
    exact ⟨fun _ => rfl, fun s acc => by simp [chunks, reconChunks]⟩
  | cons c rest ih =>
    intro hws hadj i
    have hws2 : ((!c.isWhitespace || c == spaceChar) && wsOnlySpace rest)
        = true := by
      simpa [wsOnlySpace, List.all_cons] using hws
    have hws' : wsOnlySpace rest = true := (Bool.and_eq_true_iff.mp hws2).2
    have hcall : (!c.isWhitespace || c == spaceChar) = true :=
      (Bool.and_eq_true_iff.mp hws2).1
    have hadj' : noAdjWs rest = true := noAdjWs_tail hadj
    constructor
    · intro hnl
      have hcw : c.isWhitespace = false := by
        simpa [noLeadWs] using hnl
      have := (ih hws' hadj' (i + 1)).2 i [c]
      simpa [chunks, hcw] using this
    · intro s acc
      by_cases hcw : c.isWhitespace
      · have hcsp : c = spaceChar := by
          have hbe : (c == spaceChar) = true := by simpa [hcw] using hcall
          exact beq_iff_eq.mp hbe
        have hnl : noLeadWs rest = true := by
          cases rest with
          | nil => rfl
          | cons b r =>
            have := (Bool.and_eq_true_iff.mp hadj).1
            simp only [noLeadWs]
            cases hb : b.isWhitespace
            · rfl
            · simp [hcw, hb] at this
        have := (ih hws' hadj' (i + 1)).1 hnl
        simp [chunks, hcw, reconChunks, this, hcsp]
      · have := (ih hws' hadj' (i + 1)).2 s (c :: acc)
        simpa [chunks, hcw] using this

/-- A text consisting only of whitespace produces no chunks. -/
theorem chunks_all_ws : ∀ (T : List Char) (i : Nat),
    T.all Char.isWhitespace = true → chunks T i none = [] := by
  intro T
  induction T with
  | nil => intro i _; rfl
  | cons c rest ih =>
    intro i hall
    have hall2 : (c.isWhitespace && rest.all Char.isWhitespace) = true := by
      simpa [List.all_cons] using hall
    have hc : c.isWhitespace = true := (Bool.and_eq_true_iff.mp hall2).1
    have hr : rest.all Char.isWhitespace = true :=
      (Bool.and_eq_true_iff.mp hall2).2
    simpa [chunks, hc] using ih (i + 1) hr

/-- The final reduction step of the hash is a mod by `2 ^ 64`, so every hash
is a well-formed 64-bit value. -/
theorem hashString_lt (t : List Char) : hashString t < 2 ^ 64 :=
  Nat.mod_lt _ (by norm_num [w64])

/-- A convenient concrete Document: three single-letter tokens. -/
def docABC : Doc := demoLang.process (PInput.plain (str "a b c")) none

/-- C1, corrected: `toText()` over the full Document built from T
reconstructs T exactly whenever every whitespace character of T is a single
interior space: all whitespace is the space character, no two whitespace
characters are adjacent, and T does not begin with whitespace.  (As stated
the claim is false: a whitespace run is folded into one boolean flag, see
the counterexample.) -/
theorem C1_round_trip (L : Language) (co : Option Nat) (T : List Char)
    (h1 : wsOnlySpace T = true) (h2 : noAdjWs T = true)
    (h3 : noLeadWs T = true) :
    (L.process (PInput.plain T) co).toText = T := by
  show reconToks (segment T) = T
  rw [segment, flatMap_recon _ 0 (chunks_chunksOK T 0).1]
  exact (recon_chunks T h1 h2 0).1 h3

/-- C1, counterexample: on the input "a  b" (two spaces) the Document's
`toText()` returns "a b", not the original text: the two-space run was
recorded as a single boolean trailing-space flag. -/
theorem C1_round_trip_cex :
    (demoLang.process (PInput.plain (str "a  b")) none).toText ≠
      str "a  b" := by
  decide

/-- C1, witness: the amended round trip at the notebook's example
sentence. -/
theorem C1_round_trip_witness :
    wsOnlySpace (str "I am tokenizing a python native string object")
        = true ∧
    noAdjWs (str "I am tokenizing a python native string object") = true ∧
    noLeadWs (str "I am tokenizing a python native string object") = true ∧
    (demoLang.process
        (PInput.plain (str "I am tokenizing a python native string object"))
        none).toText =
      str "I am tokenizing a python native string object" :=
  ⟨by decide, by decide, by decide,
    C1_round_trip demoLang none _ (by decide) (by decide) (by decide)⟩

/-- C2: segmentation and identity lookup are deterministic functions of the
input text given the model: any two processing runs over equal texts produce
identical span sequences, and looking a token's identity up twice yields the
same result. -/
theorem C2_determinism (L : Language) (a b : PInput) (o1 o2 : Option Nat)
    (h : a.text = b.text) :
    (L.process a o1).tokens = (L.process b o2).tokens ∧
    ∀ t : List Char, L.store.lookup t = L.store.lookup t := by
  refine ⟨?_, fun _ => rfl⟩
  show segment a.text = segment b.text
  rw [h]

/-- C2, witness: the same text through the plain and the owner-tagged path,
with different caller owners, yields identical span sequences. -/
theorem C2_determinism_witness :
    (PInput.plain (str "hi there")).text =
      (PInput.tagged (str "hi there") 7).text ∧
    ((demoLang.process (PInput.plain (str "hi there")) none).tokens =
        (demoLang.process (PInput.tagged (str "hi there") 7)
          (some 3)).tokens ∧
      ∀ t : List Char, demoLang.store.lookup t = demoLang.store.lookup t) :=
  ⟨rfl, C2_determinism demoLang (PInput.plain (str "hi there"))
    (PInput.tagged (str "hi there") 7) none (some 3) rfl⟩

/-- C3: the notebook's example sentence produces exactly 8 tokens; the last
is "object" with trailing-space flag false, and every preceding token
carries flag true. -/
theorem C3_example_sentence :
    (demoLang.process
        (PInput.plain (str "I am tokenizing a python native string object"))
        none).length = 8 ∧
    (demoLang.process
        (PInput.plain (str "I am tokenizing a python native string object"))
        none).tokens.map (fun t => (t.text, t.spaceAfter)) =
      [(str "I", true), (str "am", true), (str "tokenizing", true),
       (str "a", true), (str "python", true), (str "native", true),
       (str "string", true), (str "object", false)] :=
  ⟨by decide, by decide⟩

/-- C4: `lookup` is total by construction; it always returns the hash
computed by the one deterministic hash function (`hashString`, the same for
hits and misses), a well-formed 64-bit value, and on a vocabulary miss the
all-zero vector of the store's dimensionality. -/
theorem C4_lookup_total (s : LexicalStore) (t : List Char) :
    (s.lookup t).1 = hashString t ∧ (s.lookup t).1 < 2 ^ 64 ∧
    (s.has t = false →
      s.lookup t = (hashString t, List.replicate s.dim 0.0)) := by
  refine ⟨rfl, hashString_lt t, ?_⟩
  intro hmiss
  unfold LexicalStore.has at hmiss
  cases hv : lookupVec s.entries t with
  | none => simp [LexicalStore.lookup, hv]
  | some v => simp [hv] at hmiss

/-- C4, witness: an out-of-vocabulary text gets the deterministic hash and
the zero vector. -/
theorem C4_lookup_total_witness :
    demoStore.has (str "qwz") = false ∧
    demoStore.lookup (str "qwz") =
      (hashString (str "qwz"), List.replicate demoStore.dim 0.0) :=
  ⟨by decide, (C4_lookup_total demoStore (str "qwz")).2.2 (by decide)⟩

/-- C5: token spans of a produced Document are strictly increasing:
`tokenAt i` and `tokenAt (i+1)` both succeed for valid `i`, and the former's
span starts strictly before the latter's. -/
theorem C5_ordering (L : Language) (inp : PInput) (co : Option Nat) (i : Nat)
    (h : i + 1 < (L.process inp co).length) :
    ∃ t u : SpanTok, (L.process inp co).tokenAt i = Except.ok t ∧
      (L.process inp co).tokenAt (i + 1) = Except.ok u ∧
      t.start < u.start := by
  have h2 : i + 1 < (L.process inp co).tokens.length := h
  have hlen : i < (L.process inp co).tokens.length := Nat.lt_of_succ_lt h
  have hlt := toksOK_get_lt (segment inp.text) 0 (segment_toksOK inp.text) i h
  exact ⟨(L.process inp co).tokens.get ⟨i, hlen⟩,
    (L.process inp co).tokens.get ⟨i + 1, h2⟩,
    by simp [Doc.tokenAt, hlen], by simp [Doc.tokenAt, h2], hlt⟩

/-- C5, witness: the ordering at the first two tokens of a concrete
Document. -/
theorem C5_ordering_witness :
    ∃ t u : SpanTok, docABC.tokenAt 0 = Except.ok t ∧
      docABC.tokenAt 1 = Except.ok u ∧ t.start < u.start :=
  C5_ordering demoLang (PInput.plain (str "a b c")) none 0 (by decide)

/-- C6: for in-range bounds, `slice(a, b)` succeeds with a view of length
`b - a` sharing the parent's text buffer, whose `tokenAt i` is the parent's
`tokenAt (a + i)`; out-of-range or inverted bounds fail with
`InvalidRangeError`. -/
theorem C6_slicing (d : Doc) (a b : Nat) :
    (a ≤ b → b ≤ d.length →
      ∃ d2 : Doc, d.slice a b = Except.ok d2 ∧ d2.length = b - a ∧
        d2.text = d.text ∧ d2.owner = d.owner ∧
        ∀ i : Nat, i < b - a → d2.tokenAt i = d.tokenAt (a + i)) ∧
    (¬ (a ≤ b ∧ b ≤ d.length) →
      d.slice a b = Except.error DocError.invalidRange) := by
  constructor
  · intro hab hbl
    have hbl2 : b ≤ d.tokens.length := hbl
    refine ⟨⟨d.text, (d.tokens.drop a).take (b - a), d.owner⟩, ?_, ?_, rfl,
      rfl, ?_⟩
    · simp [Doc.slice, hab, hbl2]
    · show ((d.tokens.drop a).take (b - a)).length = b - a
      rw [List.length_take, List.length_drop]
      omega
    · intro i hi
      have hi2 : i < ((d.tokens.drop a).take (b - a)).length := by
        rw [List.length_take, List.length_drop]; omega
      have hai : a + i < d.tokens.length := by omega
      show Doc.tokenAt _ i = Doc.tokenAt d (a + i)
      simp only [Doc.tokenAt, dif_pos hi2, dif_pos hai]
      congr 1
      simp [List.get_eq_getElem, List.getElem_take, List.getElem_drop]
  · intro hno
    have hno2 : ¬ (a ≤ b ∧ b ≤ d.tokens.length) := hno
    simp [Doc.slice, hno2]

/-- C6, witness: a concrete in-range slice and a concrete inverted-range
failure on a three-token Document. -/
theorem C6_slicing_witness :
    (∃ d2 : Doc, docABC.slice 1 3 = Except.ok d2 ∧ d2.length = 3 - 1 ∧
      d2.text = docABC.text ∧ d2.owner = docABC.owner ∧
      ∀ i : Nat, i < 3 - 1 → d2.tokenAt i = docABC.tokenAt (1 + i)) ∧
    docABC.slice 2 1 = Except.error DocError.invalidRange :=
  ⟨(C6_slicing docABC 1 3).1 (by decide) (by decide),
    (C6_slicing docABC 2 1).2 (by decide)⟩

/-- C7: the empty input yields a Document with zero tokens and no error, and
so does any input consisting only of whitespace. -/
theorem C7_empty_input (L : Language) (co : Option Nat) :
    (L.process (PInput.plain (str "")) co).length = 0 ∧
    ∀ T : List Char, T.all Char.isWhitespace = true →
      (L.process (PInput.plain T) co).length = 0 := by
  refine ⟨rfl, ?_⟩
  intro T hT
  show (segment T).length = 0
  rw [segment, chunks_all_ws T 0 hT]
  rfl

/-- C7, witness: a whitespace-only input yields zero tokens. -/
theorem C7_empty_input_witness :
    (str "  ").all Char.isWhitespace = true ∧
    (demoLang.process (PInput.plain (str "  ")) none).length = 0 :=
  ⟨by decide, (C7_empty_input demoLang none).2 (str "  ") (by decide)⟩

/-- C8: a token's hash and vector depend only on its text: two tokens with
equal text have equal `orth` and equal vectors, whatever their spans or
flags (hence whatever Document or position they come from). -/
theorem C8_hash_content_only (s : LexicalStore) (t1 t2 : SpanTok)
    (h : t1.text = t2.text) :
    t1.orth s = t2.orth s ∧ t1.vector s = t2.vector s := by
  unfold SpanTok.orth SpanTok.vector
  rw [h]
  exact ⟨rfl, rfl⟩

/-- C8, witness: the token "object" occurs at offset 39 of the notebook's
first sentence and offset 32 of its second; both carry the same hash and
vector. -/
theorem C8_hash_content_only_witness :
    (⟨39, str "object", false⟩ : SpanTok).text =
      (⟨32, str "object", false⟩ : SpanTok).text ∧
    ((⟨39, str "object", false⟩ : SpanTok).orth demoStore =
        (⟨32, str "object", false⟩ : SpanTok).orth demoStore ∧
      (⟨39, str "object", false⟩ : SpanTok).vector demoStore =
        (⟨32, str "object", false⟩ : SpanTok).vector demoStore) :=
  ⟨rfl, C8_hash_content_only demoStore ⟨39, str "object", false⟩
    ⟨32, str "object", false⟩ rfl⟩

/-- C9: both input paths (plain text and owner-tagged text) produce
identical token sequences with identical hashes for the same underlying
text, whatever the caller-owner arguments; the owner-tagged path's Document
inherits the tag's owner unless `callerOwner` is explicitly given, in which
case the explicit value wins. -/
theorem C9_input_paths (L : Language) (t : List Char) (ow c : Nat)
    (co1 co2 : Option Nat) :
    (L.process (PInput.plain t) co1).tokens =
      (L.process (PInput.tagged t ow) co2).tokens ∧
    (L.process (PInput.plain t) co1).tokens.map
        (fun tk => tk.orth L.store) =
      (L.process (PInput.tagged t ow) co2).tokens.map
        (fun tk => tk.orth L.store) ∧
    (L.process (PInput.tagged t ow) none).owner = ow ∧
    (L.process (PInput.tagged t ow) (some c)).owner = c :=
  ⟨rfl, rfl, rfl, rfl⟩

/-- C10: processing a plain text with no explicit caller owner tags the
Document with the owner supplied to `load`. -/
theorem C10_default_owner (store : LexicalStore) (ow : Nat) (t : List Char) :
    ((load store ow).process (PInput.plain t) none).owner = ow :=
  rfl

end SyferText
